import Mathlib

/-!
Verification of the Go binding `bindings/go/main.go` of c-kzg-4844 against its
natural-language specification.

The Go source under `src/` is a thin binding over the C library
`c_kzg_4844.c`, which is not part of the sources.  The binding layer
(trusted-setup state checks, nil-pointer checks, parallel-array length
checks, translation of C return codes into Go error values, and the hex
unmarshalling helpers) is embedded directly from the Go source.  Calls into
the C library are abstracted as explicit function parameters returning a
result together with a `C_KZG_RET` code; where a claim depends on the
behaviour of the C library itself, that behaviour is modelled from the
specification (such definitions carry a doc comment starting with
`Modelled from the spec:`).
-/

namespace CKzg

/-- The `C_KZG_RET` enumeration of the C library: `C_KZG_OK`,
`C_KZG_BADARGS`, `C_KZG_ERROR`, `C_KZG_MALLOC`. -/
inductive CKzgRet where
  | ok
  | badargs
  | error
  | malloc
deriving DecidableEq

/-- The Go-level error values: `ErrBadArgs`, `ErrError`, `ErrMalloc`, and the
`fmt.Errorf` fallback of `makeErrorFromRet` for a code outside the switch. -/
inductive KzgError where
  | badArgs
  | errError
  | errMalloc
  | unexpected (r : CKzgRet)
deriving DecidableEq

/-- `makeErrorFromRet` from `main.go`: translates a C return value into a Go
error; codes other than the three error codes fall through to the
`fmt.Errorf` branch. -/
def makeErrorFromRet : CKzgRet → KzgError
  | .badargs => .badArgs
  | .error => .errError
  | .malloc => .errMalloc
  | r => .unexpected r

/-- Outcome of calling a Go binding function: either the call panics with a
message, or it returns a value together with an optional error. -/
inductive GoOutcome (α : Type _) where
  | panics (msg : String)
  | returns (val : α) (err : Option KzgError)
deriving DecidableEq

/-- `LoadTrustedSetup` from `main.go`.  The C call is abstracted as `cLoad`.
The returned `Bool` is the new value of the package-level `loaded` flag. -/
def LoadTrustedSetup (bytesPerG1 bytesPerG2 : ℕ) (cLoad : List ℕ → List ℕ → CKzgRet)
    (loaded : Bool) (g1Bytes g2Bytes : List ℕ) : GoOutcome Bool :=
  if loaded then .panics "trusted setup is already loaded"
  else if g1Bytes.length % bytesPerG1 ≠ 0 then .panics "len of g1Bytes is not a multiple of BYTES PER G1"
  else if g2Bytes.length % bytesPerG2 ≠ 0 then .panics "len of g2Bytes is not a multiple of BYTES PER G2"
  else if cLoad g1Bytes g2Bytes = CKzgRet.ok then .returns true none
  else .returns loaded (some (makeErrorFromRet (cLoad g1Bytes g2Bytes)))

/-- `LoadTrustedSetupFile` from `main.go`; `fopenOk` abstracts whether
`C.fopen` succeeded, `cLoadFile` the C return code. -/
def LoadTrustedSetupFile (fopenOk : Bool) (cLoadFile : CKzgRet) (loaded : Bool) : GoOutcome Bool :=
  if loaded then .panics "trusted setup is already loaded"
  else if fopenOk = false then .panics "error reading trusted setup"
  else if cLoadFile = CKzgRet.ok then .returns true none
  else .returns loaded (some (makeErrorFromRet cLoadFile))

/-- `FreeTrustedSetup` from `main.go`. -/
def FreeTrustedSetup (loaded : Bool) : GoOutcome Bool :=
  if loaded = false then .panics "trusted setup is not loaded"
  else .returns false none

/-- `BlobToKZGCommitment` from `main.go`; the blob pointer is modelled as an
`Option`, the C call as `cCall`. -/
def BlobToKZGCommitment {B C : Type} (zero : C) (cCall : B → C × CKzgRet)
    (loaded : Bool) (blob : Option B) : GoOutcome C :=
  if loaded = false then .panics "trusted setup is not loaded"
  else
    match blob with
    | none => .returns zero (some KzgError.badArgs)
    | some b =>
      let r := cCall b
      if r.2 = CKzgRet.ok then .returns r.1 none
      else .returns zero (some (makeErrorFromRet r.2))

/-- `ComputeKZGProof` from `main.go`; the result pairs the proof with the
claimed evaluation `y`. -/
def ComputeKZGProof {B P Y : Type} (zeroP : P) (zeroY : Y)
    (cCall : B → Y → (P × Y) × CKzgRet)
    (loaded : Bool) (blob : Option B) (zBytes : Y) : GoOutcome (P × Y) :=
  if loaded = false then .panics "trusted setup is not loaded"
  else
    match blob with
    | none => .returns (zeroP, zeroY) (some KzgError.badArgs)
    | some b =>
      let r := cCall b zBytes
      if r.2 = CKzgRet.ok then .returns r.1 none
      else .returns (zeroP, zeroY) (some (makeErrorFromRet r.2))

/-- `ComputeBlobKZGProof` from `main.go`. -/
def ComputeBlobKZGProof {B C48 P : Type} (zero : P) (cCall : B → C48 → P × CKzgRet)
    (loaded : Bool) (blob : Option B) (commitmentBytes : C48) : GoOutcome P :=
  if loaded = false then .panics "trusted setup is not loaded"
  else
    match blob with
    | none => .returns zero (some KzgError.badArgs)
    | some b =>
      let r := cCall b commitmentBytes
      if r.2 = CKzgRet.ok then .returns r.1 none
      else .returns zero (some (makeErrorFromRet r.2))

/-- `VerifyKZGProof` from `main.go`. -/
def VerifyKZGProof {C48 Y : Type} (cCall : C48 → Y → Y → C48 → Bool × CKzgRet)
    (loaded : Bool) (commitmentBytes : C48) (zBytes yBytes : Y) (proofBytes : C48) :
    GoOutcome Bool :=
  if loaded = false then .panics "trusted setup is not loaded"
  else
    let r := cCall commitmentBytes zBytes yBytes proofBytes
    if r.2 = CKzgRet.ok then .returns r.1 none
    else .returns false (some (makeErrorFromRet r.2))

/-- `VerifyBlobKZGProof` from `main.go`. -/
def VerifyBlobKZGProof {B C48 : Type} (cCall : B → C48 → C48 → Bool × CKzgRet)
    (loaded : Bool) (blob : Option B) (commitmentBytes proofBytes : C48) : GoOutcome Bool :=
  if loaded = false then .panics "trusted setup is not loaded"
  else
    match blob with
    | none => .returns false (some KzgError.badArgs)
    | some b =>
      let r := cCall b commitmentBytes proofBytes
      if r.2 = CKzgRet.ok then .returns r.1 none
      else .returns false (some (makeErrorFromRet r.2))

/-- `VerifyBlobKZGProofBatch` from `main.go`: the three parallel arrays must
have equal length, otherwise `ErrBadArgs` is returned. -/
def VerifyBlobKZGProofBatch {B C48 : Type} (cCall : List B → List C48 → List C48 → Bool × CKzgRet)
    (loaded : Bool) (blobs : List B) (commitmentsBytes proofsBytes : List C48) : GoOutcome Bool :=
  if loaded = false then .panics "trusted setup is not loaded"
  else if blobs.length ≠ commitmentsBytes.length ∨ blobs.length ≠ proofsBytes.length then
    .returns false (some KzgError.badArgs)
  else
    let r := cCall blobs commitmentsBytes proofsBytes
    if r.2 = CKzgRet.ok then .returns r.1 none
    else .returns false (some (makeErrorFromRet r.2))

/-- `ComputeCells` from `main.go`: note there is no nil check on the blob
pointer, which is passed straight to the C call. -/
def ComputeCells {B CellsT : Type} (zero : CellsT) (cCall : Option B → CellsT × CKzgRet)
    (loaded : Bool) (blob : Option B) : GoOutcome CellsT :=
  if loaded = false then .panics "trusted setup is not loaded"
  else
    let r := cCall blob
    if r.2 = CKzgRet.ok then .returns r.1 none
    else .returns zero (some (makeErrorFromRet r.2))

/-- `ComputeCellsAndProofs` from `main.go`: again no nil check on the blob. -/
def ComputeCellsAndProofs {B CellsT ProofsT : Type} (zeroC : CellsT) (zeroP : ProofsT)
    (cCall : Option B → (CellsT × ProofsT) × CKzgRet)
    (loaded : Bool) (blob : Option B) : GoOutcome (CellsT × ProofsT) :=
  if loaded = false then .panics "trusted setup is not loaded"
  else
    let r := cCall blob
    if r.2 = CKzgRet.ok then .returns r.1 none
    else .returns (zeroC, zeroP) (some (makeErrorFromRet r.2))

/-- `CellsToBlob` from `main.go`. -/
def CellsToBlob {B CellsT : Type} (zero : B) (cCall : CellsT → B × CKzgRet)
    (loaded : Bool) (cells : CellsT) : GoOutcome B :=
  if loaded = false then .panics "trusted setup is not loaded"
  else
    let r := cCall cells
    if r.2 = CKzgRet.ok then .returns r.1 none
    else .returns zero (some (makeErrorFromRet r.2))

/-- `RecoverAllCells` from `main.go`: the ids and cells arrays must have
equal length, otherwise `ErrBadArgs`. -/
def RecoverAllCells {CellT CellsT : Type} (zero : CellsT)
    (cCall : List ℕ → List CellT → CellsT × CKzgRet)
    (loaded : Bool) (cellIds : List ℕ) (cells : List CellT) : GoOutcome CellsT :=
  if loaded = false then .panics "trusted setup is not loaded"
  else if cellIds.length ≠ cells.length then .returns zero (some KzgError.badArgs)
  else
    let r := cCall cellIds cells
    if r.2 = CKzgRet.ok then .returns r.1 none
    else .returns zero (some (makeErrorFromRet r.2))

/-- `VerifyCellProof` from `main.go`. -/
def VerifyCellProof {C48 CellT : Type} (cCall : C48 → ℕ → CellT → C48 → Bool × CKzgRet)
    (loaded : Bool) (commitmentBytes : C48) (cellId : ℕ) (cell : CellT) (proofBytes : C48) :
    GoOutcome Bool :=
  if loaded = false then .panics "trusted setup is not loaded"
  else
    let r := cCall commitmentBytes cellId cell proofBytes
    if r.2 = CKzgRet.ok then .returns r.1 none
    else .returns false (some (makeErrorFromRet r.2))

/-- `VerifyCellProofBatch` from `main.go`: rows, columns and proofs must all
have the same length as the cells array (the commitments length is not
checked at the Go layer). -/
def VerifyCellProofBatch {C48 CellT : Type}
    (cCall : List C48 → List ℕ → List ℕ → List CellT → List C48 → Bool × CKzgRet)
    (loaded : Bool) (commitmentsBytes : List C48) (rowIndices columnIndices : List ℕ)
    (cells : List CellT) (proofsBytes : List C48) : GoOutcome Bool :=
  if loaded = false then .panics "trusted setup is not loaded"
  else if rowIndices.length ≠ cells.length ∨ columnIndices.length ≠ cells.length ∨
      proofsBytes.length ≠ cells.length then
    .returns false (some KzgError.badArgs)
  else
    let r := cCall commitmentsBytes rowIndices columnIndices cells proofsBytes
    if r.2 = CKzgRet.ok then .returns r.1 none
    else .returns false (some (makeErrorFromRet r.2))

/-! ### Hex unmarshalling (`UnmarshalText` methods of `main.go`)

Inputs are modelled as lists of byte values.  `48` is the character `0` and
`120` is the character `x`, so a leading `0x` is the byte pair `48, 120`. -/

/-- Error type for the `UnmarshalText` methods: `ErrBadArgs`, or one of the
errors of `encoding/hex` (`InvalidByteError` with the offending byte, or
`ErrLength`). -/
inductive UErr where
  | badArgs
  | hexInvalidByte (b : ℕ)
  | hexLength
deriving DecidableEq

/-- `fromHexChar` of Go `encoding/hex`: digit, lowercase or uppercase hex
character to its value. -/
def fromHexChar (c : ℕ) : Option ℕ :=
  if 48 ≤ c ∧ c ≤ 57 then some (c - 48)
  else if 97 ≤ c ∧ c ≤ 102 then some (c - 97 + 10)
  else if 65 ≤ c ∧ c ≤ 70 then some (c - 65 + 10)
  else none

/-- `hex.Decode` of Go `encoding/hex`: decodes consecutive character pairs,
reporting the first invalid character; a trailing lone character reports
`InvalidByteError` when invalid, otherwise `ErrLength`. -/
def hexDecode : List ℕ → Except UErr (List ℕ)
  | [] => .ok []
  | [c] => if (fromHexChar c).isSome then .error .hexLength else .error (.hexInvalidByte c)
  | hi :: lo :: rest =>
    match fromHexChar hi with
    | none => .error (.hexInvalidByte hi)
    | some a =>
      match fromHexChar lo with
      | none => .error (.hexInvalidByte lo)
      | some b =>
        match hexDecode rest with
        | .error e => .error e
        | .ok out => .ok ((a * 16 + b) :: out)

/-- The `bytes.HasPrefix` plus slice step of the `UnmarshalText` methods:
drop a leading `0x` when present. -/
def strip0x : List ℕ → List ℕ
  | 48 :: 120 :: rest => rest
  | l => l

/-- The common body of `Bytes32.UnmarshalText`, `Bytes48.UnmarshalText` and
`Blob.UnmarshalText` from `main.go`, for a target of `n` bytes: strip an
optional `0x`, require exactly `2 * n` characters, hex-decode, and require
`n` decoded bytes. -/
def unmarshalFixed (n : ℕ) (input : List ℕ) : Except UErr (List ℕ) :=
  if (strip0x input).length ≠ 2 * n then .error .badArgs
  else
    match hexDecode (strip0x input) with
    | .error e => .error e
    | .ok out => if out.length ≠ n then .error .badArgs else .ok out

/-- The loop of `Cell.UnmarshalText`: each 64-character chunk is parsed by
`Bytes32.UnmarshalText` (that is, `unmarshalFixed 32`, which itself strips a
leading `0x` from the chunk). -/
def cellChunks : ℕ → List ℕ → Except UErr (List (List ℕ))
  | 0, _ => .ok []
  | fe + 1, input =>
    match unmarshalFixed 32 (input.take 64) with
    | .error e => .error e
    | .ok b =>
      match cellChunks fe (input.drop 64) with
      | .error e => .error e
      | .ok rest => .ok (b :: rest)

/-- `Cell.UnmarshalText` from `main.go`, parameterised by the number of field
elements per cell `fe` (a constant of the C headers): strip an optional
leading `0x`, require `2 * (32 * fe)` characters, then parse the 64-character
chunks through `Bytes32.UnmarshalText`. -/
def cellUnmarshalText (fe : ℕ) (input : List ℕ) : Except UErr (List (List ℕ)) :=
  if (strip0x input).length ≠ 2 * (32 * fe) then .error .badArgs
  else cellChunks fe (strip0x input)

/-- The chunk-wise hex decoding of a cell input: the decoded bytes of each
64-character chunk (the value of the receiver on a successful
`Cell.UnmarshalText`). -/
def hexChunks : ℕ → List ℕ → List (List ℕ)
  | 0, _ => []
  | fe + 1, s =>
    (match hexDecode (s.take 64) with
     | .ok out => out
     | .error _ => []) :: hexChunks fe (s.drop 64)

/-! ### Spec-modelled cryptographic core

`c_kzg_4844.c` is not among the sources, so the behaviour of the C library
is modelled from the specification.  The scalar field is an arbitrary field
`F`; a blob of `FIELD_ELEMENTS_PER_BLOB = k * cs` field elements (where
`cs = FIELD_ELEMENTS_PER_CELL` and `2 * k = CELLS_PER_EXT_BLOB`) is the
vector of evaluations of a polynomial of degree below `k * cs` on a fixed
injective base domain `dom`; the extension evaluates the same polynomial on
an injective extended domain `ext` of twice the size.  Commitments and
proofs live in the exponent: the multi-scalar multiplication against the
powers of the secret `τ` is the evaluation of the polynomial at `τ`, and
the pairing identity of the spec, `e(C - [y], g2) = e(proof, [τ] - [z])`,
becomes the scalar identity `c - y = proof * (τ - z)`. -/

section SpecModel

variable {F : Type} [Field F] [DecidableEq F]

/-- Modelled from the spec: the polynomial of degree below `n` whose
evaluations on the base domain are the blob values (the blob "interpreted as
the evaluations of a polynomial of degree < FIELD_ELEMENTS_PER_BLOB"). -/
noncomputable def blobPoly {n : ℕ} (dom : Fin n → F) (b : Fin n → F) : Polynomial F :=
  Lagrange.interpolate Finset.univ dom b

/-- Modelled from the spec: `compute_cells_and_proofs` (cells part) of the C
library — evaluate the blob polynomial on the coset-extended domain of size
`2 * k * cs` and partition the result into `2 * k` contiguous cells of `cs`
field elements each. -/
noncomputable def computeCellsModel (k cs : ℕ) (dom : Fin (k * cs) → F)
    (ext : Fin (2 * k * cs) → F) (b : Fin (k * cs) → F) :
    Fin (2 * k) → Fin cs → F :=
  fun c j => (blobPoly dom b).eval (ext (finProdFinEquiv (c, j)))

/-- Reassemble the extended evaluation vector from its partition into
cells. -/
def flattenCells {k cs : ℕ} (cells : Fin (2 * k) → Fin cs → F) : Fin (2 * k * cs) → F :=
  fun i => cells (finProdFinEquiv.symm i).1 (finProdFinEquiv.symm i).2

/-- Modelled from the spec: `cells_to_blob` of the C library — inverse
transform of the full extended evaluation vector, validation that it is
consistent with a polynomial of degree below `k * cs` (else `BadArguments`),
and extraction of the original-domain evaluations. -/
noncomputable def cellsToBlobC (k cs : ℕ) (dom : Fin (k * cs) → F)
    (ext : Fin (2 * k * cs) → F) (cells : Fin (2 * k) → Fin cs → F) :
    (Fin (k * cs) → F) × CKzgRet :=
  let q := Lagrange.interpolate Finset.univ ext (flattenCells cells)
  if q.degree < ((k * cs : ℕ) : WithBot ℕ) then (fun i => q.eval (dom i), CKzgRet.ok)
  else (fun _ => 0, CKzgRet.badargs)

/-- Modelled from the spec: `blob_to_kzg_commitment` of the C library — the
multi-scalar multiplication of the blob values against the setup, in the
exponent: the blob polynomial evaluated at the secret point `τ`. -/
noncomputable def commitModel {n : ℕ} (τ : F) (dom : Fin n → F) (b : Fin n → F) : F :=
  (blobPoly dom b).eval τ

/-- Modelled from the spec: `compute_kzg_proof` of the C library — evaluate
the blob polynomial at `z`, build the quotient `(p(X) - y) / (X - z)` and
commit to it; the result is `(proof, y)`. -/
noncomputable def proveAtModel {n : ℕ} (τ : F) (dom : Fin n → F) (b : Fin n → F) (z : F) :
    F × F :=
  let p := blobPoly dom b
  let y := p.eval z
  (((p - Polynomial.C y) /ₘ (Polynomial.X - Polynomial.C z)).eval τ, y)

/-- Modelled from the spec: `verify_kzg_proof` of the C library — the pairing
identity `e(C - [y], g2) = e(proof, [τ] - [z])` in the exponent. -/
def verifyAtModel (τ c z y pf : F) : Bool := decide (c - y = pf * (τ - z))

/-- Modelled from the spec: `verify_blob_kzg_proof` — re-derive the
Fiat-Shamir evaluation point `z = fs b c`, evaluate the blob polynomial
there, and check the single-point identity. -/
noncomputable def verifyBlobModel {n : ℕ} (τ : F) (dom : Fin n → F)
    (fs : (Fin n → F) → F → F) (b : Fin n → F) (c pf : F) : Bool :=
  verifyAtModel τ c (fs b c) ((blobPoly dom b).eval (fs b c)) pf

/-- Modelled from the spec: `verify_blob_kzg_proof_batch` of the C library —
"returns true iff all `n` individual equations hold", and the empty batch
holds trivially. -/
noncomputable def cVerifyBlobBatch {n : ℕ} (τ : F) (dom : Fin n → F)
    (fs : (Fin n → F) → F → F) (blobs : List (Fin n → F))
    (commitments proofs : List F) : Bool × CKzgRet :=
  (((blobs.zip (commitments.zip proofs)).all fun t =>
      verifyBlobModel τ dom fs t.1 t.2.1 t.2.2), CKzgRet.ok)

/-- The extended-domain positions covered by the provided cell ids. -/
def recoverSet (k cs : ℕ) (ids : List ℕ) : Finset (Fin (2 * k * cs)) :=
  Finset.univ.filter (fun i => (((finProdFinEquiv.symm i).1 : Fin (2 * k)) : ℕ) ∈ ids)

/-- The provided evaluation at a covered extended-domain position: look up
the cell whose id owns the position and read the entry. -/
def recoverVals (k cs : ℕ) (ids : List ℕ) (cells : List (Fin cs → F)) :
    Fin (2 * k * cs) → F := fun i =>
  match (ids.zip cells).find?
      (fun p => p.1 == (((finProdFinEquiv.symm i).1 : Fin (2 * k)) : ℕ)) with
  | some pc => pc.2 (finProdFinEquiv.symm i).2
  | none => 0

/-- Modelled from the spec: `recover_all_cells` of the C library — it fails
with `BadArguments` when fewer than `CELLS_PER_EXT_BLOB / 2` cells are
given, when a cell id is duplicated, or when a cell id is out of range;
otherwise it interpolates through the provided positions, checks the result
is consistent with a polynomial of degree below `k * cs` (else an
`InternalError`), and re-evaluates the full extended domain. -/
noncomputable def recoverAllCellsC (k cs : ℕ) (ext : Fin (2 * k * cs) → F)
    (ids : List ℕ) (cells : List (Fin cs → F)) :
    (Fin (2 * k) → Fin cs → F) × CKzgRet :=
  if ids.length < 2 * k / 2 then (fun _ _ => 0, CKzgRet.badargs)
  else if ¬ ids.Nodup then (fun _ _ => 0, CKzgRet.badargs)
  else if ids.any (fun id => 2 * k ≤ id) then (fun _ _ => 0, CKzgRet.badargs)
  else
    if (Lagrange.interpolate (recoverSet k cs ids) ext (recoverVals k cs ids cells)).degree <
        ((k * cs : ℕ) : WithBot ℕ) then
      (fun c j =>
        (Lagrange.interpolate (recoverSet k cs ids) ext (recoverVals k cs ids cells)).eval
          (ext (finProdFinEquiv (c, j))), CKzgRet.ok)
    else (fun _ _ => 0, CKzgRet.error)

/-- The abstracted C call for `BlobToKZGCommitment`, instantiated with the
spec model. -/
noncomputable def cCommit {n : ℕ} (τ : F) (dom : Fin n → F) (b : Fin n → F) : F × CKzgRet :=
  (commitModel τ dom b, CKzgRet.ok)

/-- The abstracted C call for `ComputeKZGProof`, instantiated with the spec
model. -/
noncomputable def cProveAt {n : ℕ} (τ : F) (dom : Fin n → F) (b : Fin n → F) (z : F) :
    (F × F) × CKzgRet :=
  (proveAtModel τ dom b z, CKzgRet.ok)

/-- The abstracted C call for `VerifyKZGProof`, instantiated with the spec
model. -/
def cVerifyAt (τ c z y pf : F) : Bool × CKzgRet := (verifyAtModel τ c z y pf, CKzgRet.ok)

/-- The abstracted C call for `ComputeBlobKZGProof`, instantiated with the
spec model: derive `z` by Fiat-Shamir and delegate to `proveAt`. -/
noncomputable def cComputeBlobProof {n : ℕ} (τ : F) (dom : Fin n → F)
    (fs : (Fin n → F) → F → F) (b : Fin n → F) (c : F) : F × CKzgRet :=
  ((proveAtModel τ dom b (fs b c)).1, CKzgRet.ok)

/-- The abstracted C call for `ComputeCells`, instantiated with the spec
model; a nil blob pointer is rejected by the C library as bad arguments. -/
noncomputable def cComputeCells (k cs : ℕ) (dom : Fin (k * cs) → F)
    (ext : Fin (2 * k * cs) → F) (ob : Option (Fin (k * cs) → F)) :
    (Fin (2 * k) → Fin cs → F) × CKzgRet :=
  match ob with
  | none => (fun _ _ => 0, CKzgRet.badargs)
  | some b => (computeCellsModel k cs dom ext b, CKzgRet.ok)

end SpecModel

/-! ### Theorems for the claims -/

/-- C1, counterexample: calling `LoadTrustedSetup` while a setup is already
loaded panics, and calling `BlobToKZGCommitment` before the setup is loaded
panics; neither situation produces a returned typed error value, contrary to
the claim. -/
theorem doubleLoad_useBeforeLoad_panic_cex :
    LoadTrustedSetup 48 96 (fun _ _ => CKzgRet.ok) true [] [] =
      GoOutcome.panics "trusted setup is already loaded" ∧
    BlobToKZGCommitment (0 : ℕ) (fun _ : ℕ => ((0 : ℕ), CKzgRet.ok)) false (some 0) =
      GoOutcome.panics "trusted setup is not loaded" :=
  ⟨rfl, rfl⟩

/-- C1 (amended): invoking any public operation before the trusted setup has
been loaded panics, and invoking `LoadTrustedSetup` (or
`LoadTrustedSetupFile`) while a setup is already loaded panics; setup-state
misuse aborts the process instead of returning a typed error. -/
theorem setupStateMisuse_panics :
    (∀ (bp1 bp2 : ℕ) (cLoad : List ℕ → List ℕ → CKzgRet) (g1 g2 : List ℕ),
      LoadTrustedSetup bp1 bp2 cLoad true g1 g2 =
        GoOutcome.panics "trusted setup is already loaded") ∧
    (∀ (fo : Bool) (cr : CKzgRet),
      LoadTrustedSetupFile fo cr true = GoOutcome.panics "trusted setup is already loaded") ∧
    (FreeTrustedSetup false = GoOutcome.panics "trusted setup is not loaded") ∧
    (∀ {B C : Type} (zero : C) (cCall : B → C × CKzgRet) (blob : Option B),
      BlobToKZGCommitment zero cCall false blob = GoOutcome.panics "trusted setup is not loaded") ∧
    (∀ {B P Y : Type} (zp : P) (zy : Y) (cCall : B → Y → (P × Y) × CKzgRet)
        (blob : Option B) (z : Y),
      ComputeKZGProof zp zy cCall false blob z = GoOutcome.panics "trusted setup is not loaded") ∧
    (∀ {B C48 P : Type} (zero : P) (cCall : B → C48 → P × CKzgRet) (blob : Option B) (c : C48),
      ComputeBlobKZGProof zero cCall false blob c =
        GoOutcome.panics "trusted setup is not loaded") ∧
    (∀ {C48 Y : Type} (cCall : C48 → Y → Y → C48 → Bool × CKzgRet) (c : C48) (z y : Y) (pf : C48),
      VerifyKZGProof cCall false c z y pf = GoOutcome.panics "trusted setup is not loaded") ∧
    (∀ {B C48 : Type} (cCall : B → C48 → C48 → Bool × CKzgRet) (blob : Option B) (c pf : C48),
      VerifyBlobKZGProof cCall false blob c pf =
        GoOutcome.panics "trusted setup is not loaded") ∧
    (∀ {B C48 : Type} (cCall : List B → List C48 → List C48 → Bool × CKzgRet)
        (blobs : List B) (cs ps : List C48),
      VerifyBlobKZGProofBatch cCall false blobs cs ps =
        GoOutcome.panics "trusted setup is not loaded") ∧
    (∀ {B CellsT : Type} (zero : CellsT) (cCall : Option B → CellsT × CKzgRet) (blob : Option B),
      ComputeCells zero cCall false blob = GoOutcome.panics "trusted setup is not loaded") ∧
    (∀ {B CellsT ProofsT : Type} (zc : CellsT) (zp : ProofsT)
        (cCall : Option B → (CellsT × ProofsT) × CKzgRet) (blob : Option B),
      ComputeCellsAndProofs zc zp cCall false blob =
        GoOutcome.panics "trusted setup is not loaded") ∧
    (∀ {B CellsT : Type} (zero : B) (cCall : CellsT → B × CKzgRet) (cells : CellsT),
      CellsToBlob zero cCall false cells = GoOutcome.panics "trusted setup is not loaded") ∧
    (∀ {CellT CellsT : Type} (zero : CellsT) (cCall : List ℕ → List CellT → CellsT × CKzgRet)
        (ids : List ℕ) (cells : List CellT),
      RecoverAllCells zero cCall false ids cells =
        GoOutcome.panics "trusted setup is not loaded") ∧
    (∀ {C48 CellT : Type} (cCall : C48 → ℕ → CellT → C48 → Bool × CKzgRet)
        (c : C48) (cid : ℕ) (cell : CellT) (pf : C48),
      VerifyCellProof cCall false c cid cell pf =
        GoOutcome.panics "trusted setup is not loaded") ∧
    (∀ {C48 CellT : Type}
        (cCall : List C48 → List ℕ → List ℕ → List CellT → List C48 → Bool × CKzgRet)
        (cs : List C48) (rows cols : List ℕ) (cells : List CellT) (pfs : List C48),
      VerifyCellProofBatch cCall false cs rows cols cells pfs =
        GoOutcome.panics "trusted setup is not loaded") := by
  refine ⟨?_, ?_, rfl, ?_, ?_, ?_, ?_, ?_, ?_, ?_, ?_, ?_, ?_, ?_, ?_⟩ <;> intros <;> rfl

/-- C5: both batch verifiers return `ErrBadArgs` (with result `false`)
whenever their parallel arrays do not all have equal length. -/
theorem batchLengthMismatch_badArgs :
    (∀ {B C48 : Type} (cCall : List B → List C48 → List C48 → Bool × CKzgRet)
        (blobs : List B) (cs ps : List C48),
      ¬ (blobs.length = cs.length ∧ blobs.length = ps.length) →
      VerifyBlobKZGProofBatch cCall true blobs cs ps =
        GoOutcome.returns false (some KzgError.badArgs)) ∧
    (∀ {C48 CellT : Type}
        (cCall : List C48 → List ℕ → List ℕ → List CellT → List C48 → Bool × CKzgRet)
        (comms : List C48) (rows cols : List ℕ) (cells : List CellT) (pfs : List C48),
      ¬ (rows.length = cells.length ∧ cols.length = cells.length ∧
          pfs.length = cells.length) →
      VerifyCellProofBatch cCall true comms rows cols cells pfs =
        GoOutcome.returns false (some KzgError.badArgs)) := by
  constructor
  · intro B C48 cCall blobs cs ps h
    have h' : blobs.length ≠ cs.length ∨ blobs.length ≠ ps.length := by tauto
    simp only [VerifyBlobKZGProofBatch, if_pos h']
    rfl
  · intro C48 CellT cCall comms rows cols cells pfs h
    have h' : rows.length ≠ cells.length ∨ cols.length ≠ cells.length ∨
        pfs.length ≠ cells.length := by tauto
    simp only [VerifyCellProofBatch, if_pos h']
    rfl

/-- C5, witness: concrete mismatched batches. -/
theorem batchLengthMismatch_badArgs_wit :
    (¬ (([] : List ℕ).length = [(0 : ℕ)].length ∧ ([] : List ℕ).length = ([] : List ℕ).length)) ∧
    VerifyBlobKZGProofBatch (fun _ _ _ => (true, CKzgRet.ok)) true ([] : List ℕ) [(0 : ℕ)] [] =
      GoOutcome.returns false (some KzgError.badArgs) ∧
    VerifyCellProofBatch (fun _ _ _ _ _ => (true, CKzgRet.ok)) true ([] : List ℕ) [0] []
        ([(0 : ℕ)]) [] =
      GoOutcome.returns false (some KzgError.badArgs) :=
  ⟨by decide,
   batchLengthMismatch_badArgs.1 _ _ _ _ (by decide),
   batchLengthMismatch_badArgs.2 _ _ _ _ _ _ (by decide)⟩

/-- C9: with the setup loaded, a nil blob pointer makes
`BlobToKZGCommitment`, `ComputeKZGProof`, `ComputeBlobKZGProof` and
`VerifyBlobKZGProof` return `ErrBadArgs` with zero-valued results, whatever
the C library would do; `ComputeCells` and `ComputeCellsAndProofs` perform
no such check and hand the nil pointer to the C call, whose return value
alone decides the outcome. -/
theorem nilBlob_badArgs_and_noCheck :
    (∀ {B C : Type} (zero : C) (cCall : B → C × CKzgRet),
      BlobToKZGCommitment zero cCall true none =
        GoOutcome.returns zero (some KzgError.badArgs)) ∧
    (∀ {B P Y : Type} (zp : P) (zy : Y) (cCall : B → Y → (P × Y) × CKzgRet) (z : Y),
      ComputeKZGProof zp zy cCall true none z =
        GoOutcome.returns (zp, zy) (some KzgError.badArgs)) ∧
    (∀ {B C48 P : Type} (zero : P) (cCall : B → C48 → P × CKzgRet) (c : C48),
      ComputeBlobKZGProof zero cCall true none c =
        GoOutcome.returns zero (some KzgError.badArgs)) ∧
    (∀ {B C48 : Type} (cCall : B → C48 → C48 → Bool × CKzgRet) (c pf : C48),
      VerifyBlobKZGProof cCall true none c pf =
        GoOutcome.returns false (some KzgError.badArgs)) ∧
    (∀ {B CellsT : Type} (zero out : CellsT) (ret : CKzgRet),
      ComputeCells (B := B) zero (fun _ => (out, ret)) true none =
        (if ret = CKzgRet.ok then GoOutcome.returns out none
         else GoOutcome.returns zero (some (makeErrorFromRet ret)))) ∧
    (∀ {B CellsT ProofsT : Type} (zc : CellsT) (zp : ProofsT) (outc : CellsT) (outp : ProofsT)
        (ret : CKzgRet),
      ComputeCellsAndProofs (B := B) zc zp (fun _ => ((outc, outp), ret)) true none =
        (if ret = CKzgRet.ok then GoOutcome.returns (outc, outp) none
         else GoOutcome.returns (zc, zp) (some (makeErrorFromRet ret)))) := by
  refine ⟨?_, ?_, ?_, ?_, ?_, ?_⟩ <;> intros <;> rfl

/-- Induction principle following the two-characters-at-a-time recursion of
`hexDecode`. -/
theorem hexPairInd {motive : List ℕ → Prop} (h0 : motive []) (h1 : ∀ c, motive [c])
    (h2 : ∀ a b l, motive l → motive (a :: b :: l)) : ∀ l, motive l
  | [] => h0
  | [c] => h1 c
  | a :: b :: l => h2 a b l (hexPairInd h0 h1 h2 l)

/-- A successful hex decode consumes exactly two characters per output
byte. -/
theorem hexDecode_ok_length : ∀ l out, hexDecode l = Except.ok out → l.length = 2 * out.length := by
  intro l
  induction l using hexPairInd with
  | h0 => intro out h; simp only [hexDecode, Except.ok.injEq] at h; subst h; rfl
  | h1 c =>
    intro out h
    simp only [hexDecode] at h
    split at h <;> exact absurd h (by simp)
  | h2 a b l ih =>
    intro out h
    simp only [hexDecode] at h
    cases ha : fromHexChar a with
    | none => rw [ha] at h; exact absurd h (by simp)
    | some va =>
      rw [ha] at h
      cases hb : fromHexChar b with
      | none => rw [hb] at h; exact absurd h (by simp)
      | some vb =>
        rw [hb] at h
        cases hrec : hexDecode l with
        | error e => rw [hrec] at h; exact absurd h (by simp)
        | ok t =>
          rw [hrec] at h
          simp only [Except.ok.injEq] at h
          subst h
          have := ih t hrec
          simp [List.length, this]
          omega

/-- A successful hex decode implies every character is a hex character. -/
theorem hexDecode_ok_allHex :
    ∀ l out, hexDecode l = Except.ok out → ∀ c ∈ l, (fromHexChar c).isSome := by
  intro l
  induction l using hexPairInd with
  | h0 => intro out _ c hc; cases hc
  | h1 c =>
    intro out h
    simp only [hexDecode] at h
    split at h <;> exact absurd h (by simp)
  | h2 a b l ih =>
    intro out h
    simp only [hexDecode] at h
    cases ha : fromHexChar a with
    | none => rw [ha] at h; exact absurd h (by simp)
    | some va =>
      rw [ha] at h
      cases hb : fromHexChar b with
      | none => rw [hb] at h; exact absurd h (by simp)
      | some vb =>
        rw [hb] at h
        cases hrec : hexDecode l with
        | error e => rw [hrec] at h; exact absurd h (by simp)
        | ok t =>
          intro c hc
          rcases hc with _ | ⟨_, hc⟩
          · simp [ha]
          · rcases hc with _ | ⟨_, hc⟩
            · simp [hb]
            · exact ih t hrec c hc

/-- On an even-length input containing a non-hex character, `hexDecode`
reports an `InvalidByteError`. -/
theorem hexDecode_badChar :
    ∀ l, l.length % 2 = 0 → (∃ c ∈ l, fromHexChar c = none) →
      ∃ b, hexDecode l = Except.error (UErr.hexInvalidByte b) ∧ fromHexChar b = none := by
  intro l
  induction l using hexPairInd with
  | h0 => intro _ h; simp at h
  | h1 c => intro h; simp at h
  | h2 a b l ih =>
    intro hlen hbad
    simp only [hexDecode]
    cases ha : fromHexChar a with
    | none => exact ⟨a, rfl, ha⟩
    | some va =>
      cases hb : fromHexChar b with
      | none => exact ⟨b, rfl, hb⟩
      | some vb =>
        have hl : l.length % 2 = 0 := by
          simp only [List.length_cons] at hlen; omega
        have hbad' : ∃ c ∈ l, fromHexChar c = none := by
          rcases hbad with ⟨c, hc, hcn⟩
          rcases hc with _ | ⟨_, hc⟩
          · rw [hcn] at ha; cases ha
          · rcases hc with _ | ⟨_, hc⟩
            · rw [hcn] at hb; cases hb
            · exact ⟨c, hc, hcn⟩
        obtain ⟨bb, hd, hbb⟩ := ih hl hbad'
        exact ⟨bb, by rw [hd], hbb⟩

/-- Any `hexDecode` error is an `InvalidByteError` or `ErrLength`. -/
theorem hexDecode_error_classify :
    ∀ l e, hexDecode l = Except.error e →
      (∃ b, e = UErr.hexInvalidByte b) ∨ e = UErr.hexLength := by
  intro l
  induction l using hexPairInd with
  | h0 => intro e h; simp [hexDecode] at h
  | h1 c =>
    intro e h
    simp only [hexDecode] at h
    split at h <;> simp only [Except.error.injEq] at h <;> subst h
    · exact Or.inr rfl
    · exact Or.inl ⟨c, rfl⟩
  | h2 a b l ih =>
    intro e h
    simp only [hexDecode] at h
    cases ha : fromHexChar a with
    | none =>
      rw [ha] at h; simp only [Except.error.injEq] at h; subst h; exact Or.inl ⟨a, rfl⟩
    | some va =>
      rw [ha] at h
      cases hb : fromHexChar b with
      | none =>
        rw [hb] at h; simp only [Except.error.injEq] at h; subst h; exact Or.inl ⟨b, rfl⟩
      | some vb =>
        rw [hb] at h
        cases hrec : hexDecode l with
        | error e' =>
          rw [hrec] at h
          simp only [Except.error.injEq] at h
          subst h
          exact ih e' hrec
        | ok t => rw [hrec] at h; exact absurd h (by simp)

/-- On an even-length input, `hexDecode` never reports `ErrLength`. -/
theorem hexDecode_even_no_hexLength :
    ∀ l, l.length % 2 = 0 → hexDecode l ≠ Except.error UErr.hexLength := by
  intro l
  induction l using hexPairInd with
  | h0 => intro _ h; simp [hexDecode] at h
  | h1 c => intro h; simp at h
  | h2 a b l ih =>
    intro hlen h
    simp only [hexDecode] at h
    cases ha : fromHexChar a with
    | none => rw [ha] at h; simp at h
    | some va =>
      rw [ha] at h
      cases hb : fromHexChar b with
      | none => rw [hb] at h; simp at h
      | some vb =>
        rw [hb] at h
        cases hrec : hexDecode l with
        | error e' =>
          rw [hrec] at h
          simp only [Except.error.injEq] at h
          subst h
          have hl : l.length % 2 = 0 := by
            simp only [List.length_cons] at hlen; omega
          exact ih hl hrec
        | ok t => rw [hrec] at h; simp at h

/-- `strip0x` either leaves the list unchanged or removes exactly the two
leading characters `0x`. -/
theorem strip0x_cases (l : List ℕ) :
    strip0x l = l ∨ ∃ rest, l = 48 :: 120 :: rest ∧ strip0x l = rest := by
  match l with
  | [] => exact Or.inl rfl
  | [c] =>
    left
    simp [strip0x]
  | a :: b :: rest =>
    by_cases ha : a = 48
    · by_cases hb : b = 120
      · subst ha; subst hb; exact Or.inr ⟨rest, rfl, rfl⟩
      · subst ha
        left
        simp only [strip0x]
        split
        · rename_i heq; injection heq with _ heq'; injection heq' with hb' _; exact absurd hb' hb
        · rfl
    · left
      simp only [strip0x]
      split
      · rename_i heq; injection heq with ha' _; exact absurd ha' ha
      · rfl

/-- Exhaustive case analysis of the common unmarshal body. -/
theorem unmarshalFixed_cases (n : ℕ) (input : List ℕ) :
    ((strip0x input).length ≠ 2 * n ∧ unmarshalFixed n input = Except.error UErr.badArgs) ∨
    ((strip0x input).length = 2 * n ∧ ∃ e, hexDecode (strip0x input) = Except.error e ∧
        unmarshalFixed n input = Except.error e) ∨
    ((strip0x input).length = 2 * n ∧ ∃ out, hexDecode (strip0x input) = Except.ok out ∧
        unmarshalFixed n input = Except.ok out) := by
  by_cases hlen : (strip0x input).length = 2 * n
  · cases hd : hexDecode (strip0x input) with
    | error e => exact Or.inr (Or.inl ⟨hlen, e, rfl, by simp [unmarshalFixed, hlen, hd]⟩)
    | ok out =>
      have hol : out.length = n := by
        have := hexDecode_ok_length _ _ hd
        omega
      exact Or.inr (Or.inr ⟨hlen, out, rfl, by simp [unmarshalFixed, hlen, hd, hol]⟩)
  · exact Or.inl ⟨hlen, by simp [unmarshalFixed, hlen]⟩

/-- Success characterization of the common unmarshal body: it succeeds
exactly when the stripped input has the right length and hex-decodes to the
output. -/
theorem unmarshalFixed_ok_iff (n : ℕ) (input out : List ℕ) :
    unmarshalFixed n input = Except.ok out ↔
      ((strip0x input).length = 2 * n ∧ hexDecode (strip0x input) = Except.ok out) := by
  constructor
  · intro h
    rcases unmarshalFixed_cases n input with ⟨_, he⟩ | ⟨_, e, _, he⟩ | ⟨hlen, o, hd, he⟩
    · rw [h] at he; exact absurd he (by simp)
    · rw [h] at he; exact absurd he (by simp)
    · rw [h] at he
      simp only [Except.ok.injEq] at he
      subst he
      exact ⟨hlen, hd⟩
  · rintro ⟨hlen, hd⟩
    have hol : out.length = n := by
      have := hexDecode_ok_length _ _ hd
      omega
    simp [unmarshalFixed, hlen, hd, hol]

/-- A stripped input of the wrong length makes the unmarshal body return
`ErrBadArgs`. -/
theorem unmarshalFixed_wrongLength (n : ℕ) (input : List ℕ)
    (hlen : (strip0x input).length ≠ 2 * n) :
    unmarshalFixed n input = Except.error UErr.badArgs := by
  simp [unmarshalFixed, hlen]

/-- A right-length stripped input containing a non-hex character makes the
unmarshal body return an `InvalidByteError`. -/
theorem unmarshalFixed_badChar (n : ℕ) (input : List ℕ)
    (hlen : (strip0x input).length = 2 * n)
    (hbad : ∃ c ∈ strip0x input, fromHexChar c = none) :
    ∃ b, unmarshalFixed n input = Except.error (UErr.hexInvalidByte b) := by
  obtain ⟨b, hd, _⟩ := hexDecode_badChar _ (by omega) hbad
  exact ⟨b, by simp [unmarshalFixed, hlen, hd]⟩

/-- Any error of the unmarshal body is `ErrBadArgs` or an
`InvalidByteError`; `ErrLength` is unreachable because the length check
guarantees an even-length input to `hexDecode`. -/
theorem unmarshalFixed_error_classify (n : ℕ) (input : List ℕ) (e : UErr)
    (h : unmarshalFixed n input = Except.error e) :
    e = UErr.badArgs ∨ ∃ b, e = UErr.hexInvalidByte b := by
  rcases unmarshalFixed_cases n input with ⟨_, he⟩ | ⟨hlen, e', hd, he⟩ | ⟨_, o, _, he⟩
  · rw [h] at he
    simp only [Except.error.injEq] at he
    exact Or.inl he
  · rw [h] at he
    simp only [Except.error.injEq] at he
    subst he
    rcases hexDecode_error_classify _ _ hd with ⟨b, hb⟩ | hb
    · exact Or.inr ⟨b, hb⟩
    · subst hb
      exact absurd hd (hexDecode_even_no_hexLength _ (by omega))
  · rw [h] at he
    exact absurd he (by simp)

/-- If the chunk loop of `Cell.UnmarshalText` succeeds on an input of the
expected length, every character of the input is a hex character.  The key
point is that a successful chunk parse cannot have stripped a `0x`: the
stripped chunk would have 62 characters instead of 64. -/
theorem cellChunks_ok_allHex :
    ∀ (fe : ℕ) (s : List ℕ) (outs : List (List ℕ)), s.length = 64 * fe →
      cellChunks fe s = Except.ok outs → ∀ c ∈ s, (fromHexChar c).isSome := by
  intro fe
  induction fe with
  | zero =>
    intro s outs hlen _ c hc
    have hs : s = [] := List.length_eq_zero.mp (by omega)
    subst hs
    cases hc
  | succ fe ih =>
    intro s outs hlen h c hc
    simp only [cellChunks] at h
    cases hu : unmarshalFixed 32 (s.take 64) with
    | error e => rw [hu] at h; exact absurd h (by simp)
    | ok b1 =>
      rw [hu] at h
      cases hrec : cellChunks fe (s.drop 64) with
      | error e => rw [hrec] at h; exact absurd h (by simp)
      | ok rest =>
        obtain ⟨hclen, hcdec⟩ := (unmarshalFixed_ok_iff 32 (s.take 64) b1).mp hu
        have htl : (s.take 64).length = 64 := by
          rw [List.length_take]
          omega
        have hstrip : strip0x (s.take 64) = s.take 64 := by
          rcases strip0x_cases (s.take 64) with hid | ⟨r, hr, hsr⟩
          · exact hid
          · rw [hsr] at hclen
            have := congrArg List.length hr
            rw [htl] at this
            simp only [List.length_cons] at this
            omega
        rw [hstrip] at hclen hcdec
        have hds : (s.drop 64).length = 64 * fe := by
          rw [List.length_drop]
          omega
        rcases List.mem_append.mp (show c ∈ s.take 64 ++ s.drop 64 by
            rw [List.take_append_drop]; exact hc) with hmem | hmem
        · exact hexDecode_ok_allHex _ _ hcdec c hmem
        · exact ih (s.drop 64) rest hds hrec c hmem

/-- Any error of the chunk loop of `Cell.UnmarshalText` is `ErrBadArgs` or
an `InvalidByteError`. -/
theorem cellChunks_error_classify :
    ∀ (fe : ℕ) (s : List ℕ) (e : UErr), cellChunks fe s = Except.error e →
      e = UErr.badArgs ∨ ∃ b, e = UErr.hexInvalidByte b := by
  intro fe
  induction fe with
  | zero => intro s e h; simp [cellChunks] at h
  | succ fe ih =>
    intro s e h
    simp only [cellChunks] at h
    cases hu : unmarshalFixed 32 (s.take 64) with
    | error e' =>
      rw [hu] at h
      simp only [Except.error.injEq] at h
      subst h
      exact unmarshalFixed_error_classify _ _ _ hu
    | ok b1 =>
      rw [hu] at h
      cases hrec : cellChunks fe (s.drop 64) with
      | error e' =>
        rw [hrec] at h
        simp only [Except.error.injEq] at h
        subst h
        exact ih _ _ hrec
      | ok rest => rw [hrec] at h; exact absurd h (by simp)

/-- An even-length all-hex input decodes successfully. -/
theorem hexDecode_ok_of_allHex :
    ∀ l : List ℕ, l.length % 2 = 0 → (∀ c ∈ l, (fromHexChar c).isSome) →
      ∃ out, hexDecode l = Except.ok out := by
  intro l
  induction l using hexPairInd with
  | h0 => intro _ _; exact ⟨[], rfl⟩
  | h1 c => intro h _; simp at h
  | h2 a b l ih =>
    intro hlen hhex
    obtain ⟨va, hva⟩ := Option.isSome_iff_exists.mp (hhex a (by simp))
    obtain ⟨vb, hvb⟩ := Option.isSome_iff_exists.mp (hhex b (by simp))
    obtain ⟨t, ht⟩ := ih (by simp only [List.length_cons] at hlen; omega)
      (fun c hc => hhex c (by simp [hc]))
    exact ⟨(va * 16 + vb) :: t, by simp only [hexDecode, hva, hvb, ht]⟩

/-- An all-hex input cannot begin with `0x`, so the strip is the
identity on it. -/
theorem strip0x_of_allHex {l : List ℕ} (hhex : ∀ c ∈ l, (fromHexChar c).isSome) :
    strip0x l = l := by
  rcases strip0x_cases l with hid | ⟨rest, hr, _⟩
  · exact hid
  · exfalso
    have h120 : (120 : ℕ) ∈ l := by
      rw [hr]
      exact List.mem_cons_of_mem _ (List.mem_cons_self _ _)
    exact absurd (hhex 120 h120) (by decide)

/-- A successful chunk loop returns exactly the chunk-wise decoded
bytes. -/
theorem cellChunks_ok_hexChunks :
    ∀ (fe : ℕ) (s : List ℕ) (outs : List (List ℕ)), s.length = 64 * fe →
      cellChunks fe s = Except.ok outs → outs = hexChunks fe s := by
  intro fe
  induction fe with
  | zero =>
    intro s outs _ h
    simp only [cellChunks, Except.ok.injEq] at h
    exact h.symm
  | succ fe ih =>
    intro s outs hlen h
    simp only [cellChunks] at h
    cases hu : unmarshalFixed 32 (s.take 64) with
    | error e => rw [hu] at h; exact absurd h (by simp)
    | ok b1 =>
      rw [hu] at h
      cases hrec : cellChunks fe (s.drop 64) with
      | error e => rw [hrec] at h; exact absurd h (by simp)
      | ok rest =>
        rw [hrec] at h
        simp only [Except.ok.injEq] at h
        obtain ⟨hclen, hcdec⟩ := (unmarshalFixed_ok_iff 32 (s.take 64) b1).mp hu
        have htl : (s.take 64).length = 64 := by
          rw [List.length_take]
          omega
        have hstrip : strip0x (s.take 64) = s.take 64 := by
          rcases strip0x_cases (s.take 64) with hid | ⟨r, hr, hsr⟩
          · exact hid
          · rw [hsr] at hclen
            have := congrArg List.length hr
            rw [htl] at this
            simp only [List.length_cons] at this
            omega
        rw [hstrip] at hcdec
        have hds : (s.drop 64).length = 64 * fe := by
          rw [List.length_drop]
          omega
        rw [← h]
        simp only [hexChunks, hcdec]
        exact congrArg _ (ih (s.drop 64) rest hds hrec)

/-- On a right-length all-hex input, the chunk loop succeeds and returns
the chunk-wise decoded bytes: no chunk can begin with `0x`, so each chunk
parses through `Bytes32.UnmarshalText` unchanged. -/
theorem cellChunks_ok_of_allHex :
    ∀ (fe : ℕ) (s : List ℕ), s.length = 64 * fe →
      (∀ c ∈ s, (fromHexChar c).isSome) →
      cellChunks fe s = Except.ok (hexChunks fe s) := by
  intro fe
  induction fe with
  | zero => intro s _ _; rfl
  | succ fe ih =>
    intro s hlen hhex
    have htl : (s.take 64).length = 64 := by
      rw [List.length_take]
      omega
    have hhext : ∀ c ∈ s.take 64, (fromHexChar c).isSome :=
      fun c hc => hhex c (List.take_subset _ _ hc)
    have hstrip := strip0x_of_allHex hhext
    obtain ⟨out, hdec⟩ := hexDecode_ok_of_allHex (s.take 64) (by omega) hhext
    have hu : unmarshalFixed 32 (s.take 64) = Except.ok out :=
      (unmarshalFixed_ok_iff 32 _ out).mpr ⟨by rw [hstrip, htl], by rw [hstrip]; exact hdec⟩
    have hds : (s.drop 64).length = 64 * fe := by
      rw [List.length_drop]
      omega
    have hrec := ih (s.drop 64) hds (fun c hc => hhex c (List.drop_subset _ _ hc))
    simp only [cellChunks, hu, hrec, hexChunks, hdec]

/-- C10 (amended): `UnmarshalText` on `Bytes32`, `Bytes48` and `Blob`
(`unmarshalFixed` at 32, 48 and the blob size) succeeds exactly when the
input, after stripping an optional leading `0x`, consists of exactly two
hex characters per target byte, the receiver being the decoded bytes; a
wrong stripped length yields `ErrBadArgs` and a right-length stripped input
with a non-hex character yields a hex `InvalidByteError`.
`Cell.UnmarshalText` succeeds exactly under the same condition, the
receiver being the chunk-wise decoded bytes, but a right-length input with
a non-hex character may yield either a hex decoding error or `ErrBadArgs`,
because each 64-character chunk is re-parsed by `Bytes32.UnmarshalText`,
which strips a chunk-leading `0x` and then fails the length check. -/
theorem unmarshalText_characterization :
    (∀ (n : ℕ) (input out : List ℕ),
      unmarshalFixed n input = Except.ok out ↔
        ((strip0x input).length = 2 * n ∧ (∀ c ∈ strip0x input, (fromHexChar c).isSome) ∧
          hexDecode (strip0x input) = Except.ok out)) ∧
    (∀ (n : ℕ) (input : List ℕ), (strip0x input).length ≠ 2 * n →
      unmarshalFixed n input = Except.error UErr.badArgs) ∧
    (∀ (n : ℕ) (input : List ℕ), (strip0x input).length = 2 * n →
      (∃ c ∈ strip0x input, fromHexChar c = none) →
      ∃ b, unmarshalFixed n input = Except.error (UErr.hexInvalidByte b)) ∧
    (∀ (fe : ℕ) (input : List ℕ), (strip0x input).length ≠ 2 * (32 * fe) →
      cellUnmarshalText fe input = Except.error UErr.badArgs) ∧
    (∀ (fe : ℕ) (input : List ℕ), (strip0x input).length = 2 * (32 * fe) →
      (∃ c ∈ strip0x input, fromHexChar c = none) →
      ∃ e, cellUnmarshalText fe input = Except.error e ∧
        (e = UErr.badArgs ∨ ∃ b, e = UErr.hexInvalidByte b)) ∧
    (∀ (fe : ℕ) (input : List ℕ) (outs : List (List ℕ)),
      cellUnmarshalText fe input = Except.ok outs ↔
        ((strip0x input).length = 2 * (32 * fe) ∧
          (∀ c ∈ strip0x input, (fromHexChar c).isSome) ∧
          outs = hexChunks fe (strip0x input))) := by
  refine ⟨?_, ?_, ?_, ?_, ?_, ?_⟩
  · intro n input out
    constructor
    · intro h
      obtain ⟨hlen, hd⟩ := (unmarshalFixed_ok_iff n input out).mp h
      exact ⟨hlen, hexDecode_ok_allHex _ _ hd, hd⟩
    · rintro ⟨hlen, _, hd⟩
      exact (unmarshalFixed_ok_iff n input out).mpr ⟨hlen, hd⟩
  · exact unmarshalFixed_wrongLength
  · exact unmarshalFixed_badChar
  · intro fe input h
    simp [cellUnmarshalText, h]
  · intro fe input hlen hbad
    cases hc : cellChunks fe (strip0x input) with
    | ok outs =>
      obtain ⟨c, hcmem, hcn⟩ := hbad
      have := cellChunks_ok_allHex fe _ outs (by omega) hc c hcmem
      rw [hcn] at this
      exact absurd this (by simp)
    | error e =>
      exact ⟨e, by simp [cellUnmarshalText, hlen, hc], cellChunks_error_classify _ _ _ hc⟩
  · intro fe input outs
    constructor
    · intro h
      by_cases hl : (strip0x input).length = 2 * (32 * fe)
      · simp only [cellUnmarshalText, hl, ne_eq, not_true_eq_false, if_false] at h
        exact ⟨hl, cellChunks_ok_allHex fe _ outs (by omega) h,
          cellChunks_ok_hexChunks fe _ outs (by omega) h⟩
      · exact absurd h (by simp [cellUnmarshalText, hl])
    · rintro ⟨hl, hhex, rfl⟩
      simp only [cellUnmarshalText, hl, ne_eq, not_true_eq_false, if_false]
      exact cellChunks_ok_of_allHex fe _ (by omega) hhex

set_option maxRecDepth 8000 in
/-- C10, witness: concrete instances for each part of the characterization:
a successful decode, a wrong-length input, a right-length input with a bad
character, the cell error variants, and a successful cell decode through
the sufficiency direction. -/
theorem unmarshalText_characterization_wit :
    unmarshalFixed 1 [48, 49] = Except.ok [1] ∧
    unmarshalFixed 1 [] = Except.error UErr.badArgs ∧
    (∃ b, unmarshalFixed 1 [48, 122] = Except.error (UErr.hexInvalidByte b)) ∧
    cellUnmarshalText 1 [] = Except.error UErr.badArgs ∧
    (∃ e, cellUnmarshalText 1 (List.replicate 63 48 ++ [122]) = Except.error e ∧
      (e = UErr.badArgs ∨ ∃ b, e = UErr.hexInvalidByte b)) ∧
    cellUnmarshalText 1 (List.replicate 64 48) = Except.ok [List.replicate 32 0] :=
  ⟨(unmarshalText_characterization.1 1 [48, 49] [1]).mpr ⟨by decide, by decide, by rfl⟩,
   unmarshalText_characterization.2.1 1 [] (by decide),
   unmarshalText_characterization.2.2.1 1 [48, 122] (by decide) ⟨122, by decide, by decide⟩,
   unmarshalText_characterization.2.2.2.1 1 [] (by decide),
   unmarshalText_characterization.2.2.2.2.1 1 (List.replicate 63 48 ++ [122]) (by decide)
     ⟨122, by decide, by decide⟩,
   (unmarshalText_characterization.2.2.2.2.2 1 (List.replicate 64 48)
      [List.replicate 32 0]).mpr ⟨by decide, by decide, by decide⟩⟩

/-- A right-length all-hex cell input except that its second 64-character
chunk begins with `0x`. -/
def cexCellInput : List ℕ := List.replicate 64 48 ++ (48 :: 120 :: List.replicate 62 48)

set_option maxRecDepth 8000 in
/-- C10, counterexample: a right-length cell input containing the non-hex
character `x` (as part of a chunk-leading `0x`) makes `Cell.UnmarshalText`
return `ErrBadArgs`, not a hex decoding error as the claim states. -/
theorem cellUnmarshal_chunkPrefix_badArgs_cex :
    (strip0x cexCellInput).length = 2 * (32 * 2) ∧
    (120 ∈ strip0x cexCellInput ∧ fromHexChar 120 = none) ∧
    cellUnmarshalText 2 cexCellInput = Except.error UErr.badArgs ∧
    ∀ b, UErr.badArgs ≠ UErr.hexInvalidByte b :=
  ⟨by decide, by decide, by rfl, fun _ h => UErr.noConfusion h⟩

set_option maxRecDepth 8000 in
/-- C8, counterexample: a public operation surfaces an error outside the
three-error taxonomy: `Bytes32.UnmarshalText` on a right-length input with
a non-hex character returns the hex `InvalidByteError`, which is not the
`ErrBadArgs` of the taxonomy (nor any other of its errors). -/
theorem unmarshal_hexError_outside_taxonomy_cex :
    unmarshalFixed 32 (List.replicate 63 48 ++ [122]) =
      Except.error (UErr.hexInvalidByte 122) ∧
    UErr.hexInvalidByte 122 ≠ UErr.badArgs :=
  ⟨by rfl, fun h => UErr.noConfusion h⟩

/-- The three typed errors of the error taxonomy. -/
def KzgError.isTyped (e : KzgError) : Prop :=
  e = KzgError.badArgs ∨ e = KzgError.errError ∨ e = KzgError.errMalloc

/-- `makeErrorFromRet` maps every non-ok return code into the taxonomy. -/
theorem makeErrorFromRet_isTyped (r : CKzgRet) (h : r ≠ CKzgRet.ok) :
    (makeErrorFromRet r).isTyped := by
  cases r
  · exact absurd rfl h
  · exact Or.inl rfl
  · exact Or.inr (Or.inl rfl)
  · exact Or.inr (Or.inr rfl)

/-- The common result-translation tail of the binding functions only
produces taxonomy errors. -/
theorem returns_some_of_ifRet {α : Type} (x : α × CKzgRet) (zero v : α) (e : KzgError)
    (h : (if x.2 = CKzgRet.ok then GoOutcome.returns x.1 none
          else GoOutcome.returns zero (some (makeErrorFromRet x.2))) =
         GoOutcome.returns v (some e)) : e.isTyped := by
  by_cases hr : x.2 = CKzgRet.ok
  · rw [if_pos hr] at h
    simp only [GoOutcome.returns.injEq] at h
    exact absurd h.2 (by simp)
  · rw [if_neg hr] at h
    simp only [GoOutcome.returns.injEq, Option.some.injEq] at h
    exact h.2 ▸ makeErrorFromRet_isTyped _ hr

/-- Any error of `Cell.UnmarshalText` is `ErrBadArgs` or an
`InvalidByteError`. -/
theorem cellUnmarshalText_error_classify (fe : ℕ) (input : List ℕ) (e : UErr)
    (h : cellUnmarshalText fe input = Except.error e) :
    e = UErr.badArgs ∨ ∃ b, e = UErr.hexInvalidByte b := by
  by_cases hl : (strip0x input).length = 2 * (32 * fe)
  · simp only [cellUnmarshalText, hl, ne_eq, not_true_eq_false, if_false] at h
    exact cellChunks_error_classify _ _ _ h
  · simp only [cellUnmarshalText, hl, ne_eq, not_false_eq_true, if_true,
      Except.error.injEq] at h
    exact Or.inl h.symm

/-- C8 (amended): every error value returned through the error result of a
KZG binding operation is one of the three typed errors (`ErrBadArgs`,
`ErrError`, `ErrMalloc`); the `UnmarshalText` helpers can additionally
return hex decoding errors (`InvalidByteError`), and setup-state violations
surface as panics rather than as returned errors. -/
theorem returnedErrors_taxonomy :
    (∀ (bp1 bp2 : ℕ) (cLoad : List ℕ → List ℕ → CKzgRet) (loaded : Bool)
        (g1 g2 : List ℕ) (v : Bool) (e : KzgError),
      LoadTrustedSetup bp1 bp2 cLoad loaded g1 g2 = GoOutcome.returns v (some e) →
        e.isTyped) ∧
    (∀ (fo : Bool) (cr : CKzgRet) (loaded v : Bool) (e : KzgError),
      LoadTrustedSetupFile fo cr loaded = GoOutcome.returns v (some e) → e.isTyped) ∧
    (∀ (loaded v : Bool) (e : KzgError),
      FreeTrustedSetup loaded = GoOutcome.returns v (some e) → e.isTyped) ∧
    (∀ {B C : Type} (zero : C) (cCall : B → C × CKzgRet) (loaded : Bool)
        (blob : Option B) (v : C) (e : KzgError),
      BlobToKZGCommitment zero cCall loaded blob = GoOutcome.returns v (some e) →
        e.isTyped) ∧
    (∀ {B P Y : Type} (zp : P) (zy : Y) (cCall : B → Y → (P × Y) × CKzgRet)
        (loaded : Bool) (blob : Option B) (z : Y) (v : P × Y) (e : KzgError),
      ComputeKZGProof zp zy cCall loaded blob z = GoOutcome.returns v (some e) →
        e.isTyped) ∧
    (∀ {B C48 P : Type} (zero : P) (cCall : B → C48 → P × CKzgRet) (loaded : Bool)
        (blob : Option B) (c : C48) (v : P) (e : KzgError),
      ComputeBlobKZGProof zero cCall loaded blob c = GoOutcome.returns v (some e) →
        e.isTyped) ∧
    (∀ {C48 Y : Type} (cCall : C48 → Y → Y → C48 → Bool × CKzgRet) (loaded : Bool)
        (c : C48) (z y : Y) (pf : C48) (v : Bool) (e : KzgError),
      VerifyKZGProof cCall loaded c z y pf = GoOutcome.returns v (some e) → e.isTyped) ∧
    (∀ {B C48 : Type} (cCall : B → C48 → C48 → Bool × CKzgRet) (loaded : Bool)
        (blob : Option B) (c pf : C48) (v : Bool) (e : KzgError),
      VerifyBlobKZGProof cCall loaded blob c pf = GoOutcome.returns v (some e) →
        e.isTyped) ∧
    (∀ {B C48 : Type} (cCall : List B → List C48 → List C48 → Bool × CKzgRet)
        (loaded : Bool) (blobs : List B) (cs ps : List C48) (v : Bool) (e : KzgError),
      VerifyBlobKZGProofBatch cCall loaded blobs cs ps = GoOutcome.returns v (some e) →
        e.isTyped) ∧
    (∀ {B CellsT : Type} (zero : CellsT) (cCall : Option B → CellsT × CKzgRet)
        (loaded : Bool) (blob : Option B) (v : CellsT) (e : KzgError),
      ComputeCells zero cCall loaded blob = GoOutcome.returns v (some e) → e.isTyped) ∧
    (∀ {B CellsT ProofsT : Type} (zc : CellsT) (zp : ProofsT)
        (cCall : Option B → (CellsT × ProofsT) × CKzgRet) (loaded : Bool)
        (blob : Option B) (v : CellsT × ProofsT) (e : KzgError),
      ComputeCellsAndProofs zc zp cCall loaded blob = GoOutcome.returns v (some e) →
        e.isTyped) ∧
    (∀ {B CellsT : Type} (zero : B) (cCall : CellsT → B × CKzgRet) (loaded : Bool)
        (cells : CellsT) (v : B) (e : KzgError),
      CellsToBlob zero cCall loaded cells = GoOutcome.returns v (some e) → e.isTyped) ∧
    (∀ {CellT CellsT : Type} (zero : CellsT)
        (cCall : List ℕ → List CellT → CellsT × CKzgRet) (loaded : Bool)
        (ids : List ℕ) (cells : List CellT) (v : CellsT) (e : KzgError),
      RecoverAllCells zero cCall loaded ids cells = GoOutcome.returns v (some e) →
        e.isTyped) ∧
    (∀ {C48 CellT : Type} (cCall : C48 → ℕ → CellT → C48 → Bool × CKzgRet)
        (loaded : Bool) (c : C48) (cid : ℕ) (cell : CellT) (pf : C48) (v : Bool)
        (e : KzgError),
      VerifyCellProof cCall loaded c cid cell pf = GoOutcome.returns v (some e) →
        e.isTyped) ∧
    (∀ {C48 CellT : Type}
        (cCall : List C48 → List ℕ → List ℕ → List CellT → List C48 → Bool × CKzgRet)
        (loaded : Bool) (cs : List C48) (rows cols : List ℕ) (cells : List CellT)
        (pfs : List C48) (v : Bool) (e : KzgError),
      VerifyCellProofBatch cCall loaded cs rows cols cells pfs =
        GoOutcome.returns v (some e) → e.isTyped) ∧
    (∀ (n : ℕ) (input : List ℕ) (e : UErr), unmarshalFixed n input = Except.error e →
      e = UErr.badArgs ∨ ∃ b, e = UErr.hexInvalidByte b) ∧
    (∀ (fe : ℕ) (input : List ℕ) (e : UErr), cellUnmarshalText fe input = Except.error e →
      e = UErr.badArgs ∨ ∃ b, e = UErr.hexInvalidByte b) := by
  refine ⟨?_, ?_, ?_, ?_, ?_, ?_, ?_, ?_, ?_, ?_, ?_, ?_, ?_, ?_, ?_,
    unmarshalFixed_error_classify, cellUnmarshalText_error_classify⟩
  · intro bp1 bp2 cLoad loaded g1 g2 v e h
    cases loaded with
    | true => exact absurd h (by simp [LoadTrustedSetup])
    | false =>
      simp only [LoadTrustedSetup] at h
      by_cases h1 : g1.length % bp1 ≠ 0
      · rw [if_neg (by simp), if_pos h1] at h
        exact absurd h (by simp)
      · by_cases h2 : g2.length % bp2 ≠ 0
        · rw [if_neg (by simp), if_neg h1, if_pos h2] at h
          exact absurd h (by simp)
        · rw [if_neg (by simp), if_neg h1, if_neg h2] at h
          exact returns_some_of_ifRet (true, cLoad g1 g2) false v e h
  · intro fo cr loaded v e h
    cases loaded with
    | true => exact absurd h (by simp [LoadTrustedSetupFile])
    | false =>
      cases fo with
      | false => exact absurd h (by simp [LoadTrustedSetupFile])
      | true =>
        simp only [LoadTrustedSetupFile] at h
        rw [if_neg (by simp), if_neg (by simp)] at h
        exact returns_some_of_ifRet (true, cr) false v e h
  · intro loaded v e h
    cases loaded with
    | false => exact absurd h (by simp [FreeTrustedSetup])
    | true => exact absurd h (by simp [FreeTrustedSetup])
  · intro B C zero cCall loaded blob v e h
    cases loaded with
    | false => exact absurd h (by simp [BlobToKZGCommitment])
    | true =>
      cases blob with
      | none =>
        simp only [BlobToKZGCommitment, Bool.true_eq_false, if_false,
          GoOutcome.returns.injEq, Option.some.injEq] at h
        exact h.2 ▸ Or.inl rfl
      | some b =>
        simp only [BlobToKZGCommitment, Bool.true_eq_false, if_false] at h
        exact returns_some_of_ifRet _ _ _ _ h
  · intro B P Y zp zy cCall loaded blob z v e h
    cases loaded with
    | false => exact absurd h (by simp [ComputeKZGProof])
    | true =>
      cases blob with
      | none =>
        simp only [ComputeKZGProof, Bool.true_eq_false, if_false,
          GoOutcome.returns.injEq, Option.some.injEq] at h
        exact h.2 ▸ Or.inl rfl
      | some b =>
        simp only [ComputeKZGProof, Bool.true_eq_false, if_false] at h
        exact returns_some_of_ifRet _ _ _ _ h
  · intro B C48 P zero cCall loaded blob c v e h
    cases loaded with
    | false => exact absurd h (by simp [ComputeBlobKZGProof])
    | true =>
      cases blob with
      | none =>
        simp only [ComputeBlobKZGProof, Bool.true_eq_false, if_false,
          GoOutcome.returns.injEq, Option.some.injEq] at h
        exact h.2 ▸ Or.inl rfl
      | some b =>
        simp only [ComputeBlobKZGProof, Bool.true_eq_false, if_false] at h
        exact returns_some_of_ifRet _ _ _ _ h
  · intro C48 Y cCall loaded c z y pf v e h
    cases loaded with
    | false => exact absurd h (by simp [VerifyKZGProof])
    | true =>
      simp only [VerifyKZGProof, Bool.true_eq_false, if_false] at h
      exact returns_some_of_ifRet _ _ _ _ h
  · intro B C48 cCall loaded blob c pf v e h
    cases loaded with
    | false => exact absurd h (by simp [VerifyBlobKZGProof])
    | true =>
      cases blob with
      | none =>
        simp only [VerifyBlobKZGProof, Bool.true_eq_false, if_false,
          GoOutcome.returns.injEq, Option.some.injEq] at h
        exact h.2 ▸ Or.inl rfl
      | some b =>
        simp only [VerifyBlobKZGProof, Bool.true_eq_false, if_false] at h
        exact returns_some_of_ifRet _ _ _ _ h
  · intro B C48 cCall loaded blobs cs ps v e h
    cases loaded with
    | false => exact absurd h (by simp [VerifyBlobKZGProofBatch])
    | true =>
      simp only [VerifyBlobKZGProofBatch, Bool.true_eq_false, if_false] at h
      by_cases hl : blobs.length ≠ cs.length ∨ blobs.length ≠ ps.length
      · rw [if_pos hl] at h
        simp only [GoOutcome.returns.injEq, Option.some.injEq] at h
        exact h.2 ▸ Or.inl rfl
      · rw [if_neg hl] at h
        exact returns_some_of_ifRet _ _ _ _ h
  · intro B CellsT zero cCall loaded blob v e h
    cases loaded with
    | false => exact absurd h (by simp [ComputeCells])
    | true =>
      simp only [ComputeCells, Bool.true_eq_false, if_false] at h
      exact returns_some_of_ifRet _ _ _ _ h
  · intro B CellsT ProofsT zc zp cCall loaded blob v e h
    cases loaded with
    | false => exact absurd h (by simp [ComputeCellsAndProofs])
    | true =>
      simp only [ComputeCellsAndProofs, Bool.true_eq_false, if_false] at h
      exact returns_some_of_ifRet _ _ _ _ h
  · intro B CellsT zero cCall loaded cells v e h
    cases loaded with
    | false => exact absurd h (by simp [CellsToBlob])
    | true =>
      simp only [CellsToBlob, Bool.true_eq_false, if_false] at h
      exact returns_some_of_ifRet _ _ _ _ h
  · intro CellT CellsT zero cCall loaded ids cells v e h
    cases loaded with
    | false => exact absurd h (by simp [RecoverAllCells])
    | true =>
      simp only [RecoverAllCells, Bool.true_eq_false, if_false] at h
      by_cases hl : ids.length ≠ cells.length
      · rw [if_pos hl] at h
        simp only [GoOutcome.returns.injEq, Option.some.injEq] at h
        exact h.2 ▸ Or.inl rfl
      · rw [if_neg hl] at h
        exact returns_some_of_ifRet _ _ _ _ h
  · intro C48 CellT cCall loaded c cid cell pf v e h
    cases loaded with
    | false => exact absurd h (by simp [VerifyCellProof])
    | true =>
      simp only [VerifyCellProof, Bool.true_eq_false, if_false] at h
      exact returns_some_of_ifRet _ _ _ _ h
  · intro C48 CellT cCall loaded cs rows cols cells pfs v e h
    cases loaded with
    | false => exact absurd h (by simp [VerifyCellProofBatch])
    | true =>
      simp only [VerifyCellProofBatch, Bool.true_eq_false, if_false] at h
      by_cases hl : rows.length ≠ cells.length ∨ cols.length ≠ cells.length ∨
          pfs.length ≠ cells.length
      · rw [if_pos hl] at h
        simp only [GoOutcome.returns.injEq, Option.some.injEq] at h
        exact h.2 ▸ Or.inl rfl
      · rw [if_neg hl] at h
        exact returns_some_of_ifRet _ _ _ _ h

/-- C8, witness: a malloc failure reported by the C load call surfaces as
the typed `ErrMalloc`, and a wrong-length unmarshal input surfaces as
`ErrBadArgs`. -/
theorem returnedErrors_taxonomy_wit :
    KzgError.isTyped KzgError.errMalloc ∧
    (UErr.badArgs = UErr.badArgs ∨ ∃ b, UErr.badArgs = UErr.hexInvalidByte b) :=
  ⟨returnedErrors_taxonomy.1 1 1 (fun _ _ => CKzgRet.malloc) false [] [] false
      KzgError.errMalloc (by rfl),
   returnedErrors_taxonomy.2.2.2.2.2.2.2.2.2.2.2.2.2.2.2.1 1 [] UErr.badArgs (by rfl)⟩

/-- C4: the batch verifier applied to empty arrays returns `true` with no
error: the Go length checks pass and the modelled C batch check holds
vacuously on an empty batch. -/
theorem verifyBlobBatch_empty_true {F : Type} [Field F] [DecidableEq F] {n : ℕ}
    (τ : F) (dom : Fin n → F) (fs : (Fin n → F) → F → F) :
    VerifyBlobKZGProofBatch (cVerifyBlobBatch τ dom fs) true [] [] [] =
      GoOutcome.returns true none := by
  rfl

/-- The quotient-remainder identity behind KZG verification: for any
polynomial, `p(τ) - p(z) = q(τ) * (τ - z)` where `q` is the quotient of
`p - p(z)` by `X - z`. -/
theorem eval_sub_eval_eq_divByMonic_mul {F : Type} [Field F] (p : Polynomial F) (z τ : F) :
    p.eval τ - p.eval z =
      ((p - Polynomial.C (p.eval z)) /ₘ (Polynomial.X - Polynomial.C z)).eval τ * (τ - z) := by
  have hmod : (p - Polynomial.C (p.eval z)) %ₘ (Polynomial.X - Polynomial.C z) = 0 := by
    rw [Polynomial.modByMonic_X_sub_C_eq_C_eval]
    simp
  have hdiv := Polynomial.modByMonic_add_div (p - Polynomial.C (p.eval z))
      (Polynomial.monic_X_sub_C z)
  rw [hmod, zero_add] at hdiv
  have h2 := congrArg (Polynomial.eval τ) hdiv
  simp only [Polynomial.eval_mul, Polynomial.eval_sub, Polynomial.eval_X,
    Polynomial.eval_C] at h2
  rw [← h2]
  ring

/-- C3: for every blob `b` and evaluation point `z`, committing to `b`,
computing the proof and claimed value `(proof, y) = proveAt(b, z)`, and then
verifying `verifyAt(commit(b), z, y, proof)` through the binding returns
`true` with no error. -/
theorem proveAt_then_verifyAt_true {F : Type} [Field F] [DecidableEq F] {n : ℕ}
    (τ : F) (dom : Fin n → F) (b : Fin n → F) (z : F) :
    BlobToKZGCommitment (0 : F) (cCommit τ dom) true (some b) =
      GoOutcome.returns (commitModel τ dom b) none ∧
    ComputeKZGProof (0 : F) (0 : F) (cProveAt τ dom) true (some b) z =
      GoOutcome.returns (proveAtModel τ dom b z) none ∧
    VerifyKZGProof (cVerifyAt τ) true (commitModel τ dom b) z
        (proveAtModel τ dom b z).2 (proveAtModel τ dom b z).1 =
      GoOutcome.returns true none := by
  refine ⟨rfl, rfl, ?_⟩
  have key := eval_sub_eval_eq_divByMonic_mul (blobPoly dom b) z τ
  simp only [VerifyKZGProof, cVerifyAt, verifyAtModel, commitModel, proveAtModel,
    Bool.true_eq_false, if_false, if_true, GoOutcome.returns.injEq, and_true]
  rw [decide_eq_true_eq]
  exact key

/-- The partition of the extended evaluations, flattened back, is the
extended evaluation vector. -/
theorem flattenCells_computeCells {F : Type} [Field F] [DecidableEq F] (k cs : ℕ)
    (dom : Fin (k * cs) → F) (ext : Fin (2 * k * cs) → F) (b : Fin (k * cs) → F) :
    flattenCells (computeCellsModel k cs dom ext b) =
      fun i => (blobPoly dom b).eval (ext i) := by
  funext i
  simp only [flattenCells, computeCellsModel]
  rw [Prod.mk.eta, Equiv.apply_symm_apply]

theorem cellsToBlobC_computeCellsModel {F : Type} [Field F] [DecidableEq F] (k cs : ℕ)
    (dom : Fin (k * cs) → F) (ext : Fin (2 * k * cs) → F)
    (hdom : Function.Injective dom) (hext : Function.Injective ext) (b : Fin (k * cs) → F) :
    cellsToBlobC k cs dom ext (computeCellsModel k cs dom ext b) = (b, CKzgRet.ok) := by
  have hdeg : (blobPoly dom b).degree < ((k * cs : ℕ) : WithBot ℕ) := by
    have h := Lagrange.degree_interpolate_lt (s := Finset.univ) (v := dom) b
      hdom.injOn
    simpa [Finset.card_univ] using h
  have hq : Lagrange.interpolate Finset.univ ext
      (fun i => (blobPoly dom b).eval (ext i)) = blobPoly dom b := by
    refine (Lagrange.eq_interpolate (s := Finset.univ) hext.injOn ?_).symm
    refine lt_of_lt_of_le hdeg ?_
    simp only [Finset.card_univ, Fintype.card_fin]
    rw [Nat.cast_withBot, Nat.cast_withBot, WithBot.coe_le_coe]
    exact Nat.mul_le_mul_right cs (by omega)
  simp only [cellsToBlobC, flattenCells_computeCells, hq]
  rw [if_pos hdeg]
  refine Prod.ext ?_ rfl
  funext i
  exact Lagrange.eval_interpolate_at_node b hdom.injOn (Finset.mem_univ i)

/-- C2: for every blob `b`, computing its cells via `ComputeCells` and
reassembling them with `CellsToBlob` yields `b` back with no error: the
interpolation of the extended evaluations is the blob polynomial, it passes
the degree check, and its evaluations on the base domain are the blob
values. -/
theorem computeCells_cellsToBlob_roundTrip {F : Type} [Field F] [DecidableEq F] (k cs : ℕ)
    (dom : Fin (k * cs) → F) (ext : Fin (2 * k * cs) → F)
    (hdom : Function.Injective dom) (hext : Function.Injective ext) (b : Fin (k * cs) → F) :
    ComputeCells (fun _ _ => (0 : F)) (cComputeCells k cs dom ext) true (some b) =
      GoOutcome.returns (computeCellsModel k cs dom ext b) none ∧
    CellsToBlob (fun _ => (0 : F)) (cellsToBlobC k cs dom ext) true
        (computeCellsModel k cs dom ext b) =
      GoOutcome.returns b none := by
  constructor
  · rfl
  · simp only [CellsToBlob, Bool.true_eq_false, if_false]
    rw [cellsToBlobC_computeCellsModel k cs dom ext hdom hext b]
    rfl

/-- C2, witness: a concrete one-element blob over the rationals. -/
theorem computeCells_cellsToBlob_roundTrip_wit :
    Function.Injective ![(0:ℚ)] ∧ Function.Injective ![(0:ℚ), 1] ∧
    CellsToBlob (fun _ => (0:ℚ)) (cellsToBlobC 1 1 ![(0:ℚ)] ![(0:ℚ), 1])
        true (computeCellsModel 1 1 ![(0:ℚ)] ![(0:ℚ), 1] ![(1:ℚ)]) =
      GoOutcome.returns ![(1:ℚ)] none :=
  ⟨by decide, by decide,
   (computeCells_cellsToBlob_roundTrip 1 1 ![(0:ℚ)] ![(0:ℚ), 1]
      (by decide) (by decide) ![(1:ℚ)]).2⟩

/-- Looking up an id in the zipped (ids, cells) list returns the cell of
the unique matching selector entry. -/
theorem find_in_zip_map {m : ℕ} {γ : Type} (f : Fin m → γ) :
    ∀ (sel : List (Fin m)) (c : Fin m), c ∈ sel →
      ((sel.map Fin.val).zip (sel.map f)).find?
        (fun p => p.1 == (c : ℕ)) = some ((c : ℕ), f c) := by
  intro sel
  induction sel with
  | nil => intro c hc; cases hc
  | cons h t ih =>
    intro c hc
    simp only [List.map_cons, List.zip_cons_cons]
    by_cases hh : h = c
    · subst hh
      rw [List.find?_cons_of_pos _ (by simp)]
    · rw [List.find?_cons_of_neg _ (by
        simp only [beq_iff_eq]
        exact fun hv => hh (Fin.val_injective hv))]
      have hct : c ∈ t := by
        rcases List.mem_cons.mp hc with h1 | h1
        · exact absurd h1.symm hh
        · exact h1
      exact ih c hct

/-- The covered position set is the image of the selected cells times the
within-cell positions. -/
theorem recoverSet_eq (k cs : ℕ) (sel : List (Fin (2 * k))) :
    recoverSet k cs (sel.map Fin.val) =
      Finset.map finProdFinEquiv.toEmbedding (sel.toFinset ×ˢ Finset.univ) := by
  ext i
  simp only [recoverSet, Finset.mem_filter, Finset.mem_univ, true_and, Finset.mem_map,
    Finset.mem_product, Equiv.coe_toEmbedding]
  constructor
  · intro hi
    refine ⟨finProdFinEquiv.symm i, ⟨?_, trivial⟩, Equiv.apply_symm_apply _ _⟩
    exact List.mem_toFinset.mpr ((List.mem_map_of_injective Fin.val_injective).mp hi)
  · rintro ⟨⟨c, j⟩, ⟨hc, _⟩, rfl⟩
    rw [Equiv.symm_apply_apply]
    exact (List.mem_map_of_injective Fin.val_injective).mpr (List.mem_toFinset.mp hc)

/-- A selection of distinct cells covers `sel.length * cs` positions. -/
theorem recoverSet_card (k cs : ℕ) (sel : List (Fin (2 * k))) (hnd : sel.Nodup) :
    (recoverSet k cs (sel.map Fin.val)).card = sel.length * cs := by
  rw [recoverSet_eq, Finset.card_map, Finset.card_product, Finset.card_univ,
    Fintype.card_fin, List.toFinset_card_of_nodup hnd]

/-- On covered positions, the provided values are the evaluations of the
blob polynomial on the extended domain. -/
theorem recoverVals_eq {F : Type} [Field F] [DecidableEq F] (k cs : ℕ)
    (dom : Fin (k * cs) → F) (ext : Fin (2 * k * cs) → F)
    (sel : List (Fin (2 * k))) (b : Fin (k * cs) → F) :
    ∀ i ∈ recoverSet k cs (sel.map Fin.val),
      recoverVals k cs (sel.map Fin.val)
        (sel.map (fun c => computeCellsModel k cs dom ext b c)) i =
        (blobPoly dom b).eval (ext i) := by
  intro i hi
  simp only [recoverSet, Finset.mem_filter, Finset.mem_univ, true_and] at hi
  have hc : (finProdFinEquiv.symm i).1 ∈ sel :=
    (List.mem_map_of_injective Fin.val_injective).mp hi
  simp only [recoverVals]
  rw [find_in_zip_map (fun c => computeCellsModel k cs dom ext b c) sel _ hc]
  simp only [computeCellsModel]
  rw [Prod.mk.eta, Equiv.apply_symm_apply]

/-- Fewer than `CELLS_PER_EXT_BLOB / 2` cells: `BadArguments`. -/
theorem recoverAllCellsC_guard1 {F : Type} [Field F] [DecidableEq F] (k cs : ℕ)
    (ext : Fin (2 * k * cs) → F) (ids : List ℕ) (cells : List (Fin cs → F))
    (h : ids.length < 2 * k / 2) :
    recoverAllCellsC k cs ext ids cells = (fun _ _ => 0, CKzgRet.badargs) := by
  unfold recoverAllCellsC
  rw [if_pos h]

/-- A duplicated cell id: `BadArguments`. -/
theorem recoverAllCellsC_guard2 {F : Type} [Field F] [DecidableEq F] (k cs : ℕ)
    (ext : Fin (2 * k * cs) → F) (ids : List ℕ) (cells : List (Fin cs → F))
    (h : ¬ ids.Nodup) :
    recoverAllCellsC k cs ext ids cells = (fun _ _ => 0, CKzgRet.badargs) := by
  unfold recoverAllCellsC
  by_cases h1 : ids.length < 2 * k / 2
  · rw [if_pos h1]
  · rw [if_neg h1, if_pos h]

/-- An out-of-range cell id: `BadArguments`. -/
theorem recoverAllCellsC_guard3 {F : Type} [Field F] [DecidableEq F] (k cs : ℕ)
    (ext : Fin (2 * k * cs) → F) (ids : List ℕ) (cells : List (Fin cs → F))
    (h : ∃ id ∈ ids, 2 * k ≤ id) :
    recoverAllCellsC k cs ext ids cells = (fun _ _ => 0, CKzgRet.badargs) := by
  unfold recoverAllCellsC
  by_cases h1 : ids.length < 2 * k / 2
  · rw [if_pos h1]
  · rw [if_neg h1]
    by_cases h2 : ¬ ids.Nodup
    · rw [if_pos h2]
    · rw [if_neg h2, if_pos ?_]
      obtain ⟨id, hid, hge⟩ := h
      exact List.any_eq_true.mpr ⟨id, hid, by rw [decide_eq_true_eq]; exact hge⟩

/-- Given at least half of the cells of a blob, with distinct in-range ids,
the recovery model returns the full original cell set. -/
theorem recoverAllCellsC_correct {F : Type} [Field F] [DecidableEq F] (k cs : ℕ)
    (dom : Fin (k * cs) → F) (ext : Fin (2 * k * cs) → F)
    (hdom : Function.Injective dom) (hext : Function.Injective ext)
    (sel : List (Fin (2 * k))) (hnd : sel.Nodup) (hlen : k ≤ sel.length)
    (b : Fin (k * cs) → F) :
    recoverAllCellsC k cs ext (sel.map Fin.val)
      (sel.map (fun c => computeCellsModel k cs dom ext b c)) =
      (computeCellsModel k cs dom ext b, CKzgRet.ok) := by
  have hg1 : ¬ (sel.map Fin.val).length < 2 * k / 2 := by
    simp only [List.length_map]
    omega
  have hg2 : (sel.map Fin.val).Nodup := hnd.map Fin.val_injective
  have hg3 : ¬ ((sel.map Fin.val).any (fun id => 2 * k ≤ id) = true) := by
    intro hcon
    obtain ⟨x, hx, hpx⟩ := List.any_eq_true.mp hcon
    obtain ⟨c, _, rfl⟩ := List.mem_map.mp hx
    rw [decide_eq_true_eq] at hpx
    exact absurd hpx (not_le.mpr c.isLt)
  have hdeg : (blobPoly dom b).degree < ((k * cs : ℕ) : WithBot ℕ) := by
    have h := Lagrange.degree_interpolate_lt (s := Finset.univ) (v := dom) b hdom.injOn
    simpa [Finset.card_univ] using h
  have hcard : k * cs ≤ (recoverSet k cs (sel.map Fin.val)).card := by
    rw [recoverSet_card k cs sel hnd]
    exact Nat.mul_le_mul_right cs hlen
  have hq : Lagrange.interpolate (recoverSet k cs (sel.map Fin.val)) ext
      (recoverVals k cs (sel.map Fin.val)
        (sel.map (fun c => computeCellsModel k cs dom ext b c))) = blobPoly dom b := by
    refine (Lagrange.eq_interpolate_of_eval_eq _ hext.injOn ?_ ?_).symm
    · refine lt_of_lt_of_le hdeg ?_
      rw [Nat.cast_withBot, Nat.cast_withBot, WithBot.coe_le_coe]
      exact hcard
    · intro i hi
      exact (recoverVals_eq k cs dom ext sel b i hi).symm
  unfold recoverAllCellsC
  rw [if_neg hg1, if_neg (not_not_intro hg2), if_neg hg3, hq, if_pos hdeg]
  rfl

/-- C6: `RecoverAllCells` fails with `ErrBadArgs` when fewer than
`CELLS_PER_EXT_BLOB / 2` cells are supplied, when a cell id is duplicated,
and when a cell id is out of range; given at least `CELLS_PER_EXT_BLOB / 2`
distinct valid cells of a blob it returns the full original cell set. -/
theorem recoverAllCells_spec {F : Type} [Field F] [DecidableEq F] (k cs : ℕ)
    (dom : Fin (k * cs) → F) (ext : Fin (2 * k * cs) → F)
    (hdom : Function.Injective dom) (hext : Function.Injective ext) :
    (∀ (ids : List ℕ) (cells : List (Fin cs → F)), ids.length < 2 * k / 2 →
      RecoverAllCells (fun _ _ => (0 : F)) (recoverAllCellsC k cs ext) true ids cells =
        GoOutcome.returns (fun _ _ => 0) (some KzgError.badArgs)) ∧
    (∀ (ids : List ℕ) (cells : List (Fin cs → F)), ¬ ids.Nodup →
      RecoverAllCells (fun _ _ => (0 : F)) (recoverAllCellsC k cs ext) true ids cells =
        GoOutcome.returns (fun _ _ => 0) (some KzgError.badArgs)) ∧
    (∀ (ids : List ℕ) (cells : List (Fin cs → F)), (∃ id ∈ ids, 2 * k ≤ id) →
      RecoverAllCells (fun _ _ => (0 : F)) (recoverAllCellsC k cs ext) true ids cells =
        GoOutcome.returns (fun _ _ => 0) (some KzgError.badArgs)) ∧
    (∀ (sel : List (Fin (2 * k))) (bb : Fin (k * cs) → F), sel.Nodup → k ≤ sel.length →
      RecoverAllCells (fun _ _ => (0 : F)) (recoverAllCellsC k cs ext) true (sel.map Fin.val)
          (sel.map fun c => computeCellsModel k cs dom ext bb c) =
        GoOutcome.returns (computeCellsModel k cs dom ext bb) none) := by
  have go_err : ∀ (ids : List ℕ) (cells : List (Fin cs → F)),
      recoverAllCellsC k cs ext ids cells = (fun _ _ => 0, CKzgRet.badargs) →
      RecoverAllCells (fun _ _ => (0 : F)) (recoverAllCellsC k cs ext) true ids cells =
        GoOutcome.returns (fun _ _ => 0) (some KzgError.badArgs) := by
    intro ids cells hc
    by_cases hlc : ids.length = cells.length
    · simp only [RecoverAllCells, Bool.true_eq_false, if_false, if_neg (not_not_intro hlc), hc]
      rfl
    · simp only [RecoverAllCells, Bool.true_eq_false, if_false, if_pos hlc]
  refine ⟨?_, ?_, ?_, ?_⟩
  · intro ids cells h
    exact go_err ids cells (recoverAllCellsC_guard1 k cs ext ids cells h)
  · intro ids cells h
    exact go_err ids cells (recoverAllCellsC_guard2 k cs ext ids cells h)
  · intro ids cells h
    exact go_err ids cells (recoverAllCellsC_guard3 k cs ext ids cells h)
  · intro sel bb hnd hlen
    have hlc : (sel.map Fin.val).length =
        (sel.map fun c => computeCellsModel k cs dom ext bb c).length := by
      simp only [List.length_map]
    simp only [RecoverAllCells, Bool.true_eq_false, if_false, if_neg (not_not_intro hlc),
      recoverAllCellsC_correct k cs dom ext hdom hext sel hnd hlen bb]
    rfl

/-- C6, witness: concrete instances over the rationals for each part. -/
theorem recoverAllCells_spec_wit :
    RecoverAllCells (fun _ _ => (0 : ℚ)) (recoverAllCellsC 1 1 ![(0 : ℚ), 1]) true [] [] =
      GoOutcome.returns (fun _ _ => 0) (some KzgError.badArgs) ∧
    RecoverAllCells (fun _ _ => (0 : ℚ)) (recoverAllCellsC 1 1 ![(0 : ℚ), 1]) true [0, 0]
        [fun _ => 3, fun _ => 3] =
      GoOutcome.returns (fun _ _ => 0) (some KzgError.badArgs) ∧
    RecoverAllCells (fun _ _ => (0 : ℚ)) (recoverAllCellsC 1 1 ![(0 : ℚ), 1]) true [7]
        [fun _ => 3] =
      GoOutcome.returns (fun _ _ => 0) (some KzgError.badArgs) ∧
    RecoverAllCells (fun _ _ => (0 : ℚ)) (recoverAllCellsC 1 1 ![(0 : ℚ), 1]) true
        ([(0 : Fin 2)].map Fin.val)
        ([(0 : Fin 2)].map fun c => computeCellsModel 1 1 ![(0 : ℚ)] ![(0 : ℚ), 1] ![(2 : ℚ)] c) =
      GoOutcome.returns (computeCellsModel 1 1 ![(0 : ℚ)] ![(0 : ℚ), 1] ![(2 : ℚ)]) none := by
  refine ⟨?_, ?_, ?_, ?_⟩
  · exact (recoverAllCells_spec 1 1 ![(0 : ℚ)] ![(0 : ℚ), 1] (by decide) (by decide)).1
      [] [] (by decide)
  · exact (recoverAllCells_spec 1 1 ![(0 : ℚ)] ![(0 : ℚ), 1] (by decide) (by decide)).2.1
      [0, 0] [fun _ => 3, fun _ => 3] (by decide)
  · exact (recoverAllCells_spec 1 1 ![(0 : ℚ)] ![(0 : ℚ), 1] (by decide) (by decide)).2.2.1
      [7] [fun _ => 3] ⟨7, by decide, by decide⟩
  · exact (recoverAllCells_spec 1 1 ![(0 : ℚ)] ![(0 : ℚ), 1] (by decide) (by decide)).2.2.2
      [(0 : Fin 2)] ![(2 : ℚ)] (by decide) (by decide)

/-- C7: determinism — the binding operations, with the C calls instantiated
by the spec model against a fixed setup (secret `τ`, domains, Fiat-Shamir
function), return identical results on identical inputs; the embedding is
purely functional and repeated invocation cannot differ. -/
theorem publicOps_deterministic {F : Type} [Field F] [DecidableEq F] (k cs : ℕ)
    (τ : F) (dom : Fin (k * cs) → F) (ext : Fin (2 * k * cs) → F)
    (fs : (Fin (k * cs) → F) → F → F) :
    (∀ b b' : Fin (k * cs) → F, b = b' →
      BlobToKZGCommitment (0 : F) (cCommit τ dom) true (some b) =
        BlobToKZGCommitment (0 : F) (cCommit τ dom) true (some b')) ∧
    (∀ (b b' : Fin (k * cs) → F) (z z' : F), b = b' → z = z' →
      ComputeKZGProof (0 : F) (0 : F) (cProveAt τ dom) true (some b) z =
        ComputeKZGProof (0 : F) (0 : F) (cProveAt τ dom) true (some b') z') ∧
    (∀ (b b' : Fin (k * cs) → F) (c c' : F), b = b' → c = c' →
      ComputeBlobKZGProof (0 : F) (cComputeBlobProof τ dom fs) true (some b) c =
        ComputeBlobKZGProof (0 : F) (cComputeBlobProof τ dom fs) true (some b') c') ∧
    (∀ (ids ids' : List ℕ) (cells cells' : List (Fin cs → F)), ids = ids' → cells = cells' →
      RecoverAllCells (fun _ _ => (0 : F)) (recoverAllCellsC k cs ext) true ids cells =
        RecoverAllCells (fun _ _ => (0 : F)) (recoverAllCellsC k cs ext) true ids' cells') ∧
    (∀ ob ob' : Option (Fin (k * cs) → F), ob = ob' →
      ComputeCells (fun _ _ => (0 : F)) (cComputeCells k cs dom ext) true ob =
        ComputeCells (fun _ _ => (0 : F)) (cComputeCells k cs dom ext) true ob') := by
  refine ⟨?_, ?_, ?_, ?_, ?_⟩ <;> intros <;> subst_vars <;> rfl

/-- C7, witness: concrete repeated invocations over the rationals. -/
theorem publicOps_deterministic_wit :
    BlobToKZGCommitment (0 : ℚ) (cCommit 2 ![(0 : ℚ)]) true (some ![(3 : ℚ)]) =
      BlobToKZGCommitment (0 : ℚ) (cCommit 2 ![(0 : ℚ)]) true (some ![(3 : ℚ)]) ∧
    RecoverAllCells (fun _ _ => (0 : ℚ)) (recoverAllCellsC 1 1 ![(0 : ℚ), 1]) true [0]
        [fun _ => (5 : ℚ)] =
      RecoverAllCells (fun _ _ => (0 : ℚ)) (recoverAllCellsC 1 1 ![(0 : ℚ), 1]) true [0]
        [fun _ => (5 : ℚ)] :=
  ⟨(publicOps_deterministic 1 1 2 ![(0 : ℚ)] ![(0 : ℚ), 1] (fun _ _ => 0)).1 _ _ rfl,
   (publicOps_deterministic 1 1 2 ![(0 : ℚ)] ![(0 : ℚ), 1]
      (fun _ _ => 0)).2.2.2.1 _ _ _ _ rfl rfl⟩

end CKzg
